import Mathlib

/-!
# Verification of the telemetry server (`server.js`)

Shallow embedding of the Express/Supabase telemetry server.  Request bodies
are JSON values; JavaScript truthiness, `typeof` checks and the `x || y`
defaulting idiom are modelled explicitly.  JavaScript numbers are IEEE
doubles, but every property below depends only on the number type tag and on
zero-versus-nonzero, so numbers are modelled as `Int` (JSON itself has no
`NaN`/`Infinity` literals).  `new Date()` is a read of the server clock,
modelled by an explicit clock value (or, for the call-log batch, a stream of
clock readings, one per read, since `new Date()` is evaluated once per mapped
element).  `new Date(x)` applied to client data is kept uninterpreted as the
constructor `jdateOf`.  Store (Supabase) calls are parameterised by their
outcome; the operations a handler attempts are collected in `HRes.ops`.
-/

/-- A JavaScript/JSON value as seen by the handlers.  `jundefined` is the result
of reading an absent object property; `jdate t` is a `Date` produced by
`new Date()` when the server clock reads `t`; `jdateOf v` is `new Date(v)`
for a client-supplied `v` (its parsing is irrelevant to every claim). -/
inductive JVal where
  | jundefined : JVal
  | jnull : JVal
  | jbool (b : Bool) : JVal
  | jnum (n : Int) : JVal
  | jstr (s : String) : JVal
  | jarr (elems : List JVal) : JVal
  | jobj (fields : List (String × JVal)) : JVal
  | jdate (t : Int) : JVal
  | jdateOf (v : JVal) : JVal

/-- A JavaScript object literal / parsed JSON object: field list in source
order. -/
abbrev JObj := List (String × JVal)

/-- Property read `o[k]`: last binding wins (as for duplicate JSON keys),
absent keys give `undefined`. -/
def getF (o : JObj) (k : String) : JVal :=
  match List.find? (fun p => p.1 == k) (List.reverse o) with
  | some p => p.2
  | none => .jundefined

/-- Property write `o[k] = v` (used only to state client-tampering
invariants): appending a binding, which `getF` makes the visible one. -/
def setF (o : JObj) (k : String) (v : JVal) : JObj :=
  o ++ [(k, v)]

/-- Does the object literally carry the key? -/
def hasField (o : JObj) (k : String) : Bool :=
  List.any o (fun p => p.1 == k)

/-- JavaScript truthiness.  `undefined`, `null`, `false`, `0`, `""` are
falsy; objects, arrays and `Date`s are always truthy. -/
def truthy : JVal → Bool
  | .jundefined => false
  | .jnull => false
  | .jbool b => b
  | .jnum n => decide (n ≠ 0)
  | .jstr s => decide (s ≠ "")
  | .jarr _ => true
  | .jobj _ => true
  | .jdate _ => true
  | .jdateOf _ => true

/-- The JavaScript number-type check (typeof v compared with the number tag). -/
def isNumber : JVal → Bool
  | .jnum _ => true
  | _ => false

/-- The JavaScript string-type check (typeof v compared with the string tag). -/
def isString : JVal → Bool
  | .jstr _ => true
  | _ => false

/-- The JavaScript array check `Array.isArray(v)`. -/
def isArray : JVal → Bool
  | .jarr _ => true
  | _ => false

/-- The elements of an array value (`[]` for non-arrays; only used under an
`isArray` guard). -/
def arrElems : JVal → List JVal
  | .jarr xs => xs
  | _ => []

/-- The characters of a string value (`""` for non-strings; only used under
an `isString` guard). -/
def strVal : JVal → String
  | .jstr s => s
  | _ => ""

/-- The JavaScript defaulting idiom `v || null`. -/
def jor (v : JVal) : JVal :=
  if truthy v then v else .jnull

/-- Property read `c.k` on an arbitrary value: reading a property of
`null`/`undefined` throws a `TypeError` (modelled as `none`); on objects it
is `getF`; on other primitives it yields `undefined`. -/
def jmem : JVal → String → Option JVal
  | .jundefined, _ => none
  | .jnull, _ => none
  | .jobj fs, k => some (getF fs k)
  | _, _ => some .jundefined

/-- A store-level operation the handler hands to the Supabase client. -/
inductive StoreOp where
  | insert (table : String) (rows : List JObj) : StoreOp
  | update (table : String) (values : JObj) (idEq : JVal) : StoreOp

/-- Outcome of one endpoint call: HTTP status, JSON response body, and the
store operations the handler attempted (in order). -/
structure HRes where
  status : Nat
  resBody : JObj
  ops : List StoreOp

/-- The failure response body: ok false plus the error message. -/
def errBody (msg : String) : JObj :=
  [("ok", .jbool false), ("error", .jstr msg)]

/-- All rows the handler attempted to insert, in order. -/
def insertedRows (h : HRes) : List JObj :=
  List.foldr
    (fun op acc =>
      match op with
      | StoreOp.insert _ rs => rs ++ acc
      | StoreOp.update _ _ _ => acc)
    [] h.ops

/-- The transport-level view of a request: the `x-forwarded-for` header value
(`jundefined` when the header is absent) and `req.socket?.remoteAddress`. -/
structure ReqNet where
  xff : JVal
  remote : Option String

/-- The characters of `s.split(',')[0]`: everything before the first comma
(the whole string when there is none). -/
def takeUntilComma : List Char → List Char
  | [] => []
  | c :: cs => if c = ',' then [] else c :: takeUntilComma cs

/-- Whitespace for `String.prototype.trim` (only ASCII whitespace occurs in
forwarded-address headers). -/
def isWs (c : Char) : Bool :=
  c = ' ' || c = '\t' || c = '\n' || c = '\r'

/-- Model of `.trim()`: drop whitespace from both ends. -/
def trimChars (cs : List Char) : List Char :=
  List.reverse (List.dropWhile isWs (List.reverse (List.dropWhile isWs cs)))

/-- The first comma-separated entry of the header value, trimmed. -/
def firstEntryTrim (s : String) : String :=
  String.mk (trimChars (takeUntilComma s.data))

/-- The resolver `getClientIp` (`server.js` lines 26–31): if the forwarded header is
truthy and a string, the first comma-separated entry trimmed; otherwise
`req.socket?.remoteAddress || null`. -/
def getClientIp (req : ReqNet) : JVal :=
  if truthy req.xff && isString req.xff then
    .jstr (firstEntryTrim (strVal req.xff))
  else
    match req.remote with
    | some a => if a == "" then .jnull else .jstr a
    | none => .jnull

/-- Handler for `POST /users` (lines 42–58).  `store` is the outcome of the one Supabase
call the taken branch performs: for the update branch the row payload is
ignored; for the insert branch `Except.ok row` is the row returned by
`.select().single()` (carrying the generated id).  No validation of `id` is
performed by the handler; the branch is chosen by the truthiness of `id`. -/
def postUsers (body : JObj) (store : Except String JObj) : HRes :=
  let id := getF body "id"
  let username := getF body "username"
  let phone := getF body "phone"
  if truthy id then
    let op := StoreOp.update "users" [("username", username), ("phone", phone)] id
    match store with
    | .error m => { status := 500, resBody := errBody m, ops := [op] }
    | .ok _ => { status := 200, resBody := [("ok", .jbool true), ("id", id)], ops := [op] }
  else
    let op := StoreOp.insert "users" [[("username", username), ("phone", phone)]]
    match store with
    | .error m => { status := 500, resBody := errBody m, ops := [op] }
    | .ok row =>
      { status := 200
        resBody := [("ok", .jbool true), ("id", getF row "id"), ("user", .jobj row)]
        ops := [op] }

/-- The consent row inserted by `POST /consent`: note the literal
`given: true` and the absence of any `created_at` field (delegated to the
store's column default). -/
def consentRow (user_id consent_text : JVal) : JObj :=
  [("user_id", user_id), ("consent_text", consent_text), ("given", .jbool true)]

/-- Handler for `POST /consent` (lines 64–76): `if(!user_id || !consent_text)` gives a
400 before any store call; otherwise one insert of one row. -/
def postConsent (body : JObj) (store : Except String Unit) : HRes :=
  let user_id := getF body "user_id"
  let consent_text := getF body "consent_text"
  if !truthy user_id || !truthy consent_text then
    { status := 400, resBody := errBody "user_id et consent_text requis", ops := [] }
  else
    let op := StoreOp.insert "consent_logs" [consentRow user_id consent_text]
    match store with
    | .error m => { status := 500, resBody := errBody m, ops := [op] }
    | .ok _ => { status := 200, resBody := [("ok", .jbool true)], ops := [op] }

/-- Handler for `POST /report-location` (lines 83–99).  `now` is the server clock at the
`new Date()` in the payload; `if(!user_id || typeof latitude !== 'number'
|| typeof longitude !== 'number')` gives a 400 with no store call. -/
def reportLocation (req : ReqNet) (body : JObj) (now : Int)
    (store : Except String Unit) : HRes :=
  let ip := getClientIp req
  let user_id := getF body "user_id"
  let latitude := getF body "latitude"
  let longitude := getF body "longitude"
  let accuracy := getF body "accuracy"
  if !truthy user_id || !isNumber latitude || !isNumber longitude then
    { status := 400, resBody := errBody "user_id, latitude et longitude requis", ops := [] }
  else
    let payload : JObj :=
      [("user_id", user_id), ("latitude", latitude), ("longitude", longitude),
       ("accuracy", jor accuracy), ("ip", ip), ("created_at", .jdate now)]
    let op := StoreOp.insert "device_locations" [payload]
    match store with
    | .error m => { status := 500, resBody := errBody m, ops := [op] }
    | .ok _ => { status := 200, resBody := [("ok", .jbool true)], ops := [op] }

/-- One element of the `calls.map` in `POST /report-calls` (lines 110–117):
property reads on `c` may throw (`none`) when `c` is `null`/`undefined`;
`t` is the server clock reading of this element's `new Date()`. -/
def buildRow (user_id : JVal) (t : Int) (c : JVal) : Option JObj := do
  let n ← jmem c "number"
  let d ← jmem c "direction"
  let s ← jmem c "started_at"
  let du ← jmem c "duration_seconds"
  pure [("user_id", user_id), ("number", n),
        ("direction", jor d),
        ("started_at", if truthy s then .jdateOf s else .jnull),
        ("duration_seconds", jor du),
        ("created_at", .jdate t)]

/-- The `calls.map(c => ...)` loop: the element at position `i` performs the
`i`-th `new Date()` read, returning `tick i`.  A thrown `TypeError` aborts
the whole map (no rows, no insert). -/
def buildRows (user_id : JVal) (tick : Nat → Int) : List JVal → Nat → Option (List JObj)
  | [], _ => some []
  | c :: cs, i => do
    let r ← buildRow user_id (tick i) c
    let rs ← buildRows user_id tick cs (i + 1)
    pure (r :: rs)

/-- Handler for `POST /report-calls` (lines 105–126): `if(!user_id ||
!Array.isArray(calls))` gives a 400; otherwise the mapped rows are inserted
in one batch and the response carries `inserted: rows.length`. -/
def reportCalls (body : JObj) (tick : Nat → Int)
    (store : Except String Unit) : HRes :=
  let user_id := getF body "user_id"
  let calls := getF body "calls"
  if !truthy user_id || !isArray calls then
    { status := 400, resBody := errBody "user_id et calls[] requis", ops := [] }
  else
    match buildRows user_id tick (arrElems calls) 0 with
    | none => { status := 500, resBody := errBody "TypeError", ops := [] }
    | some rows =>
      let op := StoreOp.insert "call_logs" rows
      match store with
      | .error m => { status := 500, resBody := errBody m, ops := [op] }
      | .ok _ =>
        { status := 200
          resBody := [("ok", .jbool true), ("inserted", .jnum (List.length rows))]
          ops := [op] }

/-- Handler for `POST /report-ip` (lines 133–164).  `token` is `process.env.IPINFO_TOKEN`
(`IPINFO_TOKEN || null` then `if(!IPINFO_TOKEN)` makes an empty string a
configuration failure too); `fetchRes` is the parsed provider response (or a
thrown network/parse failure); `now` is the clock at the row's
`new Date()`. -/
def reportIp (token : Option String) (req : ReqNet) (body : JObj)
    (fetchRes : Except String JObj) (now : Int)
    (store : Except String Unit) : HRes :=
  let tokenOk := match token with
    | some s => decide (s ≠ "")
    | none => false
  if !tokenOk then
    { status := 500, resBody := errBody "IPINFO_TOKEN non configuré", ops := [] }
  else
    let user_id := getF body "user_id"
    if !truthy user_id then
      { status := 400, resBody := errBody "user_id requis", ops := [] }
    else
      let ip := getClientIp req
      match fetchRes with
      | .error m => { status := 500, resBody := errBody m, ops := [] }
      | .ok geo =>
        let row : JObj :=
          [("user_id", user_id), ("ip", ip),
           ("city", jor (getF geo "city")), ("region", jor (getF geo "region")),
           ("country", jor (getF geo "country")), ("loc", jor (getF geo "loc")),
           ("provider", jor (getF geo "org")), ("created_at", .jdate now)]
        let op := StoreOp.insert "ip_locations" [row]
        match store with
        | .error m => { status := 500, resBody := errBody m, ops := [op] }
        | .ok _ =>
          { status := 200
            resBody := [("ok", .jbool true), ("geo", .jobj geo)]
            ops := [op] }

/-!
## The admin aggregation read path (`GET /admin/users`, lines 167–186)

The handler only issues `select … order(col, descending) … limit n` queries
and combines their results; the ordering/limiting itself is executed by the
store.  The store is modelled as lists of typed rows and the query primitive
as "sort descending by the named column, take the limit".  Store reads are
taken to succeed (the claim concerns successful calls).  Note the source's
`Promise.all` destructures only its first element, discarding the first
`ip_locations` query; `last_ip` comes from the second, re-issued
`ip_locations` query, which is the one modelled.
-/

/-- A row of `users` as selected by the admin listing
(`select('id, username, phone, created_at')`). -/
structure AUser where
  id : String
  username : String
  phone : String
  created_at : Int
deriving Repr, DecidableEq

/-- A `device_locations` row as seen by the admin read path (only the
columns the aggregation logic inspects are modelled; `data` stands for the
remaining selected columns). -/
structure ALoc where
  user_id : String
  created_at : Int
  data : Nat
deriving Repr, DecidableEq

/-- An `ip_locations` row as seen by the admin read path. -/
structure AIp where
  user_id : String
  created_at : Int
  data : Nat
deriving Repr, DecidableEq

/-- A `call_logs` row as seen by the admin read path; `started_at` is the
call's own start time, the ordering key of the calls query. -/
structure ACall where
  user_id : String
  started_at : Int
  data : Nat
deriving Repr, DecidableEq

/-- The per-signal stores the admin read path queries. -/
structure AdminDb where
  users : List AUser
  device_locations : List ALoc
  ip_locations : List AIp
  call_logs : List ACall

/-- Descending order on an integer column (the ascending-false ordering). -/
def descRel (f : α → Int) : α → α → Prop :=
  fun a b => f b ≤ f a

instance (f : α → Int) : DecidableRel (descRel f) :=
  fun a b => inferInstanceAs (Decidable (f b ≤ f a))

instance (f : α → Int) : IsTotal α (descRel f) :=
  ⟨fun a b => le_total (f b) (f a)⟩

instance (f : α → Int) : IsTrans α (descRel f) :=
  ⟨fun _ _ _ h1 h2 => le_trans h2 h1⟩

/-- The store query primitive order-descending-then-limit: sort descending
by the column, return the first `n` rows. -/
def queryDescLimit (f : α → Int) (n : Nat) (l : List α) : List α :=
  List.take n (List.insertionSort (descRel f) l)

/-- One element of the admin listing's `results` array. -/
structure AdminEntry where
  user : AUser
  last_location : Option ALoc
  last_ip : Option AIp
  calls : List ACall
deriving Repr, DecidableEq

/-- Handler for `GET /admin/users`: up to 200 users by registration recency; per user the
latest `device_locations` row, the latest `ip_locations` row (`limit 1`,
`?.[0] || null`) and up to 10 `call_logs` rows by `started_at` descending. -/
def adminUsers (db : AdminDb) : List AdminEntry :=
  let users := queryDescLimit (fun u : AUser => u.created_at) 200 db.users
  List.map
    (fun u =>
      { user := u
        last_location :=
          List.head? (queryDescLimit (fun r : ALoc => r.created_at) 1
            (List.filter (fun r => r.user_id == u.id) db.device_locations))
        last_ip :=
          List.head? (queryDescLimit (fun r : AIp => r.created_at) 1
            (List.filter (fun r => r.user_id == u.id) db.ip_locations))
        calls :=
          queryDescLimit (fun r : ACall => r.started_at) 10
            (List.filter (fun r => r.user_id == u.id) db.call_logs) })
    users

/-- Concrete store contents used by the admin witness: one user with two
location rows (times 1 < 2), one ip row and two call rows. -/
def wAdminDb : AdminDb :=
  { users := [⟨"u", "alice", "", 0⟩]
    device_locations := [⟨"u", 1, 10⟩, ⟨"u", 2, 20⟩]
    ip_locations := [⟨"u", 5, 30⟩]
    call_logs := [⟨"u", 3, 40⟩, ⟨"u", 4, 41⟩] }

/-- The entry the admin listing produces for `wAdminDb`. -/
def wAdminEntry : AdminEntry :=
  { user := ⟨"u", "alice", "", 0⟩
    last_location := some ⟨"u", 2, 20⟩
    last_ip := some ⟨"u", 5, 30⟩
    calls := [⟨"u", 4, 41⟩, ⟨"u", 3, 40⟩] }

/-! ### Helper lemmas about the query primitive -/

theorem mem_of_mem_queryDescLimit {f : α → Int} {n : Nat} {l : List α} {a : α}
    (h : a ∈ queryDescLimit f n l) : a ∈ l := by
  have h1 : a ∈ List.insertionSort (descRel f) l := List.mem_of_mem_take h
  exact (List.perm_insertionSort (descRel f) l).mem_iff.mp h1

theorem queryDescLimit_length {f : α → Int} (n : Nat) (l : List α) :
    List.length (queryDescLimit f n l) ≤ n :=
  List.length_take_le n _

theorem queryDescLimit_sorted {f : α → Int} (n : Nat) (l : List α) :
    List.Sorted (descRel f) (queryDescLimit f n l) :=
  (List.sorted_insertionSort (descRel f) l).sublist (List.take_sublist n _)

theorem head?_max_of_sorted {f : α → Int} {l : List α} {a : α}
    (hs : List.Sorted (descRel f) l) (h : List.head? l = some a) :
    ∀ b ∈ l, f b ≤ f a := by
  cases l with
  | nil => cases h
  | cons x xs =>
    have hax : x = a := by injection h
    subst hax
    intro b hb
    rcases List.mem_cons.mp hb with rfl | hbxs
    · exact le_refl _
    · exact (List.sorted_cons.mp hs).1 b hbxs

theorem queryDescLimit_head?_max {f : α → Int} {n : Nat} {l : List α} {a : α}
    (h : List.head? (queryDescLimit f n l) = some a) :
    a ∈ l ∧ ∀ b ∈ l, f b ≤ f a := by
  have hperm := List.perm_insertionSort (descRel f) l
  have hsorted := List.sorted_insertionSort (descRel f) l
  have hhead : List.head? (List.insertionSort (descRel f) l) = some a := by
    cases n with
    | zero => simp [queryDescLimit] at h
    | succ m =>
      cases hs : List.insertionSort (descRel f) l with
      | nil => rw [queryDescLimit, hs] at h; simp at h
      | cons x xs =>
        rw [queryDescLimit, hs, List.take_succ_cons] at h
        simpa using h
  have hmax := head?_max_of_sorted hsorted hhead
  have hmem : a ∈ List.insertionSort (descRel f) l := List.mem_of_mem_head? hhead
  exact ⟨hperm.mem_iff.mp hmem, fun b hb => hmax b (hperm.mem_iff.mpr hb)⟩

theorem queryDescLimit_isSome_of_ne_nil {f : α → Int} {l : List α}
    (hl : l ≠ []) {n : Nat} (hn : 0 < n) :
    (List.head? (queryDescLimit f n l)).isSome = true := by
  have hperm := List.perm_insertionSort (descRel f) l
  cases hs : List.insertionSort (descRel f) l with
  | nil =>
    rw [hs] at hperm
    exact absurd hperm.symm.eq_nil hl
  | cons x xs =>
    cases n with
    | zero => exact absurd hn (by decide)
    | succ m =>
      rw [queryDescLimit, hs, List.take_succ_cons]
      rfl

/-! ### Shared helper lemmas about the write path -/

theorem getF_setF_ne (k k2 : String) (h : k ≠ k2) (o : JObj) (v : JVal) :
    getF (setF o k v) k2 = getF o k2 := by
  unfold getF setF
  rw [List.reverse_append]
  have hk : ((k, v).1 == k2) = false := beq_eq_false_iff_ne.mpr h
  simp [hk]

theorem buildRow_fields {u : JVal} {t : Int} {c : JVal} {r : JObj}
    (h : buildRow u t c = some r) :
    getF r "user_id" = u ∧ getF r "created_at" = .jdate t := by
  cases c with
  | jundefined => simp [buildRow, jmem] at h
  | jnull => simp [buildRow, jmem] at h
  | jbool b => simp [buildRow, jmem] at h; subst h; exact ⟨rfl, rfl⟩
  | jnum n => simp [buildRow, jmem] at h; subst h; exact ⟨rfl, rfl⟩
  | jstr s => simp [buildRow, jmem] at h; subst h; exact ⟨rfl, rfl⟩
  | jarr xs => simp [buildRow, jmem] at h; subst h; exact ⟨rfl, rfl⟩
  | jobj fs => simp [buildRow, jmem] at h; subst h; exact ⟨rfl, rfl⟩
  | jdate t2 => simp [buildRow, jmem] at h; subst h; exact ⟨rfl, rfl⟩
  | jdateOf v => simp [buildRow, jmem] at h; subst h; exact ⟨rfl, rfl⟩

theorem buildRows_spec (u : JVal) (tick : Nat → Int) :
    ∀ (cs : List JVal) (i : Nat) (rows : List JObj),
      buildRows u tick cs i = some rows →
      List.length rows = List.length cs ∧
      (∀ r ∈ rows, getF r "user_id" = u) ∧
      (∀ k (hk : k < List.length rows),
        getF (rows.get ⟨k, hk⟩) "created_at" = .jdate (tick (i + k))) := by
  intro cs
  induction cs with
  | nil =>
    intro i rows h
    rw [buildRows] at h
    injection h with h
    subst h
    refine ⟨rfl, ?_, ?_⟩
    · intro r hr
      cases hr
    · intro k hk
      cases hk
  | cons c cs ih =>
    intro i rows h
    cases hb : buildRow u (tick i) c with
    | none => rw [buildRows, hb] at h; cases h
    | some r =>
      cases hrs : buildRows u tick cs (i + 1) with
      | none => rw [buildRows, hb, hrs] at h; cases h
      | some rs =>
        rw [buildRows, hb, hrs] at h
        simp only [Option.bind_eq_bind, Option.some_bind] at h
        injection h with h
        subst h
        obtain ⟨hlen, huid, hts⟩ := ih (i + 1) rs hrs
        refine ⟨?_, ?_, ?_⟩
        · rw [List.length_cons, List.length_cons, hlen]
        · intro x hx
          rcases List.mem_cons.mp hx with rfl | hx
          · exact (buildRow_fields hb).1
          · exact huid x hx
        · intro k hk
          cases k with
          | zero => simpa using (buildRow_fields hb).2
          | succ k2 =>
            have hk2 : k2 < List.length rs := by
              have h2 := hk
              simp only [List.length_cons] at h2
              omega
            have hrec := hts k2 hk2
            have hidx : i + (k2 + 1) = i + 1 + k2 := by omega
            have hget : (r :: rs).get ⟨k2 + 1, hk⟩ = rs.get ⟨k2, hk2⟩ := rfl
            rw [hget, hidx]
            exact hrec

theorem buildRows_mem_created_at {u : JVal} {tick : Nat → Int} {cs : List JVal}
    {rows : List JObj} (h : buildRows u tick cs 0 = some rows) :
    ∀ r ∈ rows, ∃ i, getF r "created_at" = .jdate (tick i) := by
  intro r hr
  obtain ⟨-, -, hts⟩ := buildRows_spec u tick cs 0 rows h
  obtain ⟨⟨k, hk⟩, hget⟩ := List.mem_iff_get.mp hr
  exact ⟨k, by rw [← hget]; simpa using hts k hk⟩

/-!
## Claims
-/

/-- C9: every consent row ever written by the core has `given = true`,
regardless of the request body: the public interface provides no way to
record a consent event with `given = false`. -/
theorem consent_given_always_true (body : JObj) (store : Except String Unit) :
    ∀ r ∈ insertedRows (postConsent body store), getF r "given" = .jbool true := by
  intro r hr
  simp only [postConsent] at hr
  split at hr
  · simp [insertedRows] at hr
  · cases store with
    | error m =>
      simp only [insertedRows, List.foldr] at hr
      rcases List.mem_append.mp hr with hx | hx
      · rcases List.mem_singleton.mp hx with rfl
        rfl
      · cases hx
    | ok u =>
      simp only [insertedRows, List.foldr] at hr
      rcases List.mem_append.mp hr with hx | hx
      · rcases List.mem_singleton.mp hx with rfl
        rfl
      · cases hx

/-- C9 witness: a concrete consent call's single inserted row carries
`given = true`. -/
theorem consent_given_always_true_witness :
    getF (consentRow (.jstr "u") (.jstr "j'accepte")) "given" = .jbool true :=
  consent_given_always_true
    [("user_id", .jstr "u"), ("consent_text", .jstr "j'accepte")] (.ok ())
    (consentRow (.jstr "u") (.jstr "j'accepte"))
    (List.mem_singleton.mpr rfl)

/-- C10: a registration request whose body carries a falsy `id` (such as the
empty string) runs the insert path — creating a new user whose generated id
is echoed from the store row — not the update path: the branch is selected
by the truthiness of `id`, not by the presence of the field. -/
theorem postUsers_falsy_id_insert (body : JObj) (store : Except String JObj)
    (hid : truthy (getF body "id") = false) :
    (postUsers body store).ops =
      [StoreOp.insert "users"
        [[("username", getF body "username"), ("phone", getF body "phone")]]] ∧
    ∀ row, store = .ok row →
      (postUsers body store).status = 200 ∧
      getF (postUsers body store).resBody "id" = getF row "id" := by
  have hres : postUsers body store =
      let op := StoreOp.insert "users"
        [[("username", getF body "username"), ("phone", getF body "phone")]]
      match store with
      | .error m => { status := 500, resBody := errBody m, ops := [op] }
      | .ok row =>
        { status := 200
          resBody := [("ok", .jbool true), ("id", getF row "id"), ("user", .jobj row)]
          ops := [op] } := by
    simp only [postUsers, hid]
    rfl
  constructor
  · rw [hres]
    cases store <;> rfl
  · intro row h
    subst h
    rw [hres]
    exact ⟨rfl, rfl⟩

/-- C10 witness: a body whose `id` field is present but the empty string
takes the insert path and echoes the store-generated id. -/
theorem postUsers_falsy_id_insert_witness :
    hasField [("id", JVal.jstr ""), ("username", JVal.jstr "alice")] "id" = true ∧
    (postUsers [("id", JVal.jstr ""), ("username", JVal.jstr "alice")]
      (.ok [("id", JVal.jstr "fresh-id"), ("username", JVal.jstr "alice")])).ops =
      [StoreOp.insert "users"
        [[("username", JVal.jstr "alice"), ("phone", JVal.jundefined)]]] ∧
    getF (postUsers [("id", JVal.jstr ""), ("username", JVal.jstr "alice")]
      (.ok [("id", JVal.jstr "fresh-id"), ("username", JVal.jstr "alice")])).resBody "id"
      = JVal.jstr "fresh-id" := by
  have h := postUsers_falsy_id_insert
    [("id", JVal.jstr ""), ("username", JVal.jstr "alice")]
    (.ok [("id", JVal.jstr "fresh-id"), ("username", JVal.jstr "alice")]) rfl
  exact ⟨rfl, h.1, (h.2 [("id", JVal.jstr "fresh-id"), ("username", JVal.jstr "alice")] rfl).2⟩

/-- C3 counterexample: a registration body whose `id` is not a well-formed
identifier is *not* rejected with a 400; the handler attempts a store update
with it, and a store rejection surfaces as a 500 (while a store that accepts
it yields a 200). -/
theorem postUsers_malformed_id_cex :
    (postUsers [("id", .jstr "not-a-uuid")]
      (Except.error "invalid input syntax for type uuid")).status = 500 ∧
    List.length (postUsers [("id", .jstr "not-a-uuid")]
      (Except.error "invalid input syntax for type uuid")).ops = 1 ∧
    (postUsers [("id", .jstr "not-a-uuid")] (Except.ok [])).status = 200 :=
  ⟨rfl, rfl, rfl⟩

/-- C3 amended: the registration handler performs no validation of `id` at
all — any truthy `id`, well-formed or not, selects the update path and is
passed to the store as-is; the response is never a 400 (200 on store
success, 500 carrying the store's message on store failure). -/
theorem postUsers_no_id_validation (body : JObj) (store : Except String JObj)
    (hid : truthy (getF body "id") = true) :
    (postUsers body store).ops =
      [StoreOp.update "users"
        [("username", getF body "username"), ("phone", getF body "phone")]
        (getF body "id")] ∧
    (postUsers body store).status ≠ 400 ∧
    (∀ m, store = .error m →
      (postUsers body store).status = 500 ∧
      getF (postUsers body store).resBody "error" = .jstr m) ∧
    (∀ row, store = .ok row → (postUsers body store).status = 200) := by
  have hres : postUsers body store =
      let op := StoreOp.update "users"
        [("username", getF body "username"), ("phone", getF body "phone")]
        (getF body "id")
      match store with
      | .error m => { status := 500, resBody := errBody m, ops := [op] }
      | .ok _ =>
        { status := 200
          resBody := [("ok", .jbool true), ("id", getF body "id")], ops := [op] } := by
    simp only [postUsers, hid]
    rfl
  refine ⟨?_, ?_, ?_, ?_⟩
  · rw [hres]; cases store <;> rfl
  · rw [hres]; cases store <;> simp
  · intro m h; subst h; rw [hres]; exact ⟨rfl, rfl⟩
  · intro row h; subst h; rw [hres]

/-- C3 amended witness: a concrete malformed id goes to the update path and
yields a 500, not a 400. -/
theorem postUsers_no_id_validation_witness :
    (postUsers [("id", .jstr "zzz")] (Except.error "boom")).status = 500 ∧
    (postUsers [("id", .jstr "zzz")] (Except.error "boom")).status ≠ 400 := by
  have h := postUsers_no_id_validation [("id", .jstr "zzz")] (Except.error "boom") rfl
  exact ⟨(h.2.2.1 "boom" rfl).1, h.2.1⟩

/-- C6 counterexample: truthy non-string values pass the consent check — a
body with numeric `user_id` and `consent_text` is accepted (200, one row
inserted), although the claim allows validation to succeed only for
non-empty strings. -/
theorem postConsent_nonstring_cex :
    isString (getF [("user_id", JVal.jnum 1), ("consent_text", JVal.jnum 2)] "user_id") = false ∧
    (postConsent [("user_id", JVal.jnum 1), ("consent_text", JVal.jnum 2)] (.ok ())).status = 200 ∧
    List.length (insertedRows
      (postConsent [("user_id", JVal.jnum 1), ("consent_text", JVal.jnum 2)] (.ok ()))) = 1 :=
  ⟨rfl, rfl, rfl⟩

/-- C6 amended: consent validation succeeds exactly when `user_id` and
`consent_text` are both truthy (every non-empty string is truthy, but so are
non-string truthy values); if either is absent or falsy the endpoint
responds 400 with no store operation, otherwise exactly one consent row is
inserted. -/
theorem postConsent_validation (body : JObj) (store : Except String Unit) :
    ((truthy (getF body "user_id") = false ∨ truthy (getF body "consent_text") = false) →
      (postConsent body store).status = 400 ∧ (postConsent body store).ops = []) ∧
    (truthy (getF body "user_id") = true → truthy (getF body "consent_text") = true →
      (postConsent body store).ops =
        [StoreOp.insert "consent_logs"
          [consentRow (getF body "user_id") (getF body "consent_text")]] ∧
      (store = .ok () → (postConsent body store).status = 200)) := by
  constructor
  · intro h
    have hcond : (!truthy (getF body "user_id") || !truthy (getF body "consent_text")) = true := by
      rcases h with h | h <;> rw [h] <;> simp
    simp only [postConsent, hcond]
    exact ⟨rfl, rfl⟩
  · intro h1 h2
    have hcond : (!truthy (getF body "user_id") || !truthy (getF body "consent_text")) = false := by
      rw [h1, h2]; rfl
    have hres : postConsent body store =
        let op := StoreOp.insert "consent_logs"
          [consentRow (getF body "user_id") (getF body "consent_text")]
        match store with
        | .error m => { status := 500, resBody := errBody m, ops := [op] }
        | .ok _ => { status := 200, resBody := [("ok", .jbool true)], ops := [op] } := by
      simp only [postConsent, hcond]
      rfl
    constructor
    · rw [hres]; cases store <;> rfl
    · intro h; subst h; rw [hres]

/-- C6 amended witness: a missing `consent_text` gives a 400 with no store
operation, and a valid pair gives a 200 with exactly one inserted row. -/
theorem postConsent_validation_witness :
    (postConsent [("user_id", .jstr "u")] (.ok ())).status = 400 ∧
    (postConsent [("user_id", .jstr "u")] (.ok ())).ops = [] ∧
    (postConsent [("user_id", .jstr "u"), ("consent_text", .jstr "ok")] (.ok ())).status = 200 := by
  have h1 := (postConsent_validation [("user_id", .jstr "u")] (.ok ())).1 (Or.inr rfl)
  have h2 := ((postConsent_validation [("user_id", .jstr "u"), ("consent_text", .jstr "ok")]
    (.ok ())).2 rfl rfl).2 rfl
  exact ⟨h1.1, h1.2, h2⟩

/-- C7 counterexample: the `x-forwarded-for` header present as the *empty*
string is falsy, so the resolver falls back to the transport peer address
instead of returning the (trimmed first entry of the) header, contradicting
the claim's "present as a string" condition. -/
theorem getClientIp_empty_header_cex :
    isString (JVal.jstr "") = true ∧
    firstEntryTrim "" = "" ∧
    getClientIp ⟨.jstr "", some "9.9.9.9"⟩ = .jstr "9.9.9.9" ∧
    getClientIp ⟨.jstr "", some "9.9.9.9"⟩ ≠ .jstr "" := by
  refine ⟨rfl, rfl, rfl, ?_⟩
  intro h
  injection h with h2
  exact absurd h2 (by decide)

/-- C7 amended: when the forwarded header is present as a *non-empty*
(truthy) string the resolver returns its first comma-separated entry with
whitespace trimmed; otherwise it returns the transport peer address, or
`null` when that is absent or empty. -/
theorem getClientIp_spec (req : ReqNet) :
    ((truthy req.xff && isString req.xff) = true →
      getClientIp req = .jstr (firstEntryTrim (strVal req.xff))) ∧
    ((truthy req.xff && isString req.xff) = false →
      (∀ a, req.remote = some a → a ≠ "" → getClientIp req = .jstr a) ∧
      ((req.remote = none ∨ req.remote = some "") → getClientIp req = .jnull)) := by
  constructor
  · intro h
    unfold getClientIp
    rw [if_pos h]
  · intro h
    constructor
    · intro a ha hne
      unfold getClientIp
      rw [if_neg (by rw [h]; simp), ha]
      simp [hne]
    · intro ha
      unfold getClientIp
      rcases ha with ha | ha <;> rw [if_neg (by rw [h]; simp), ha]
      rfl

/-- C7 amended witness: the spec's concrete example — header
`"1.2.3.4, 5.6.7.6"` resolves to `"1.2.3.4"`; with no header the peer
address is returned. -/
theorem getClientIp_spec_witness :
    getClientIp ⟨.jstr "1.2.3.4, 5.6.7.6", some "peer"⟩ = .jstr "1.2.3.4" ∧
    getClientIp ⟨.jundefined, some "10.0.0.1"⟩ = .jstr "10.0.0.1" := by
  have h1 := (getClientIp_spec ⟨.jstr "1.2.3.4, 5.6.7.6", some "peer"⟩).1 rfl
  have h2 := ((getClientIp_spec ⟨.jundefined, some "10.0.0.1"⟩).2 rfl).1 "10.0.0.1" rfl
    (by decide)
  exact ⟨h1.trans rfl, h2⟩

/-- C2 counterexample: a location report whose `user_id` is present but the
empty string (falsy) is rejected with a 400 and no store operation even
though `latitude` and `longitude` are numbers — the claim's converse
direction ("user_id present and coordinates numeric implies a row is
written") fails. -/
theorem reportLocation_presence_cex :
    hasField [("user_id", JVal.jstr ""), ("latitude", JVal.jnum 1),
      ("longitude", JVal.jnum 2)] "user_id" = true ∧
    isNumber (getF [("user_id", JVal.jstr ""), ("latitude", JVal.jnum 1),
      ("longitude", JVal.jnum 2)] "latitude") = true ∧
    (reportLocation ⟨.jundefined, none⟩ [("user_id", JVal.jstr ""), ("latitude", JVal.jnum 1),
      ("longitude", JVal.jnum 2)] 0 (.ok ())).status = 400 ∧
    (reportLocation ⟨.jundefined, none⟩ [("user_id", JVal.jstr ""), ("latitude", JVal.jnum 1),
      ("longitude", JVal.jnum 2)] 0 (.ok ())).ops = [] :=
  ⟨rfl, rfl, rfl, rfl⟩

/-- C2 amended: a location report is rejected with a 400 and no store
operation exactly when `user_id` is falsy (in particular missing) or
`latitude`/`longitude` is not of numeric type (numeric strings included);
when `user_id` is truthy and both coordinates are numbers, a single
device-location row carrying the submitted fields is written. -/
theorem reportLocation_validation (req : ReqNet) (body : JObj) (now : Int)
    (store : Except String Unit) :
    ((truthy (getF body "user_id") = false ∨ isNumber (getF body "latitude") = false ∨
        isNumber (getF body "longitude") = false) →
      (reportLocation req body now store).status = 400 ∧
      (reportLocation req body now store).ops = []) ∧
    (truthy (getF body "user_id") = true → isNumber (getF body "latitude") = true →
      isNumber (getF body "longitude") = true →
      insertedRows (reportLocation req body now store) =
        [[("user_id", getF body "user_id"), ("latitude", getF body "latitude"),
          ("longitude", getF body "longitude"), ("accuracy", jor (getF body "accuracy")),
          ("ip", getClientIp req), ("created_at", .jdate now)]] ∧
      (store = .ok () → (reportLocation req body now store).status = 200)) := by
  constructor
  · intro h
    have hcond : (!truthy (getF body "user_id") || !isNumber (getF body "latitude") ||
        !isNumber (getF body "longitude")) = true := by
      rcases h with h | h | h <;> rw [h] <;> simp
    simp only [reportLocation, hcond]
    exact ⟨rfl, rfl⟩
  · intro h1 h2 h3
    have hcond : (!truthy (getF body "user_id") || !isNumber (getF body "latitude") ||
        !isNumber (getF body "longitude")) = false := by
      rw [h1, h2, h3]; rfl
    have hres : reportLocation req body now store =
        let payload : JObj :=
          [("user_id", getF body "user_id"), ("latitude", getF body "latitude"),
           ("longitude", getF body "longitude"), ("accuracy", jor (getF body "accuracy")),
           ("ip", getClientIp req), ("created_at", .jdate now)]
        let op := StoreOp.insert "device_locations" [payload]
        match store with
        | .error m => { status := 500, resBody := errBody m, ops := [op] }
        | .ok _ => { status := 200, resBody := [("ok", .jbool true)], ops := [op] } := by
      simp only [reportLocation, hcond]
      rfl
    constructor
    · rw [hres]; cases store <;> rfl
    · intro h; subst h; rw [hres]

/-- C2 amended witness: a report missing `latitude` gets a 400 with no store
operation; a fully valid report gets a 200 with its single row inserted. -/
theorem reportLocation_validation_witness :
    (reportLocation ⟨.jundefined, none⟩ [("user_id", .jstr "u"), ("longitude", .jnum 2)] 0
      (.ok ())).status = 400 ∧
    (reportLocation ⟨.jundefined, some "1.1.1.1"⟩ [("user_id", .jstr "u"), ("latitude", .jnum 48),
      ("longitude", .jnum 2)] 5 (.ok ())).status = 200 := by
  have h1 := (reportLocation_validation ⟨.jundefined, none⟩
    [("user_id", .jstr "u"), ("longitude", .jnum 2)] 0 (.ok ())).1 (Or.inr (Or.inl rfl))
  have h2 := ((reportLocation_validation ⟨.jundefined, some "1.1.1.1"⟩
    [("user_id", .jstr "u"), ("latitude", .jnum 48), ("longitude", .jnum 2)] 5 (.ok ())).2
    rfl rfl rfl).2 rfl
  exact ⟨h1.1, h2⟩

/-- C8: falsy optional fields are nulled by the `x || null` defaulting —
a location report with `accuracy` equal to `0` stores `null` for accuracy,
and a call element with `duration_seconds` equal to `0` (or `direction`
equal to the empty string) gets `null` stored for that field instead of the
submitted falsy value. -/
theorem falsy_optional_fields_null (req : ReqNet) (body : JObj) (now t : Int)
    (store : Except String Unit) (u c : JVal)
    (hacc : getF body "accuracy" = .jnum 0)
    (hu : truthy (getF body "user_id") = true)
    (hlat : isNumber (getF body "latitude") = true)
    (hlong : isNumber (getF body "longitude") = true) :
    (∀ r ∈ insertedRows (reportLocation req body now store), getF r "accuracy" = .jnull) ∧
    (∀ r : JObj, jmem c "duration_seconds" = some (.jnum 0) → buildRow u t c = some r →
      getF r "duration_seconds" = .jnull) ∧
    (∀ r : JObj, jmem c "direction" = some (.jstr "") → buildRow u t c = some r →
      getF r "direction" = .jnull) := by
  refine ⟨?_, ?_, ?_⟩
  · intro r hr
    have hcond : (!truthy (getF body "user_id") || !isNumber (getF body "latitude") ||
        !isNumber (getF body "longitude")) = false := by
      rw [hu, hlat, hlong]; rfl
    simp only [reportLocation, hcond] at hr
    cases store with
    | error m =>
      simp only [insertedRows, List.foldr] at hr
      rcases List.mem_append.mp hr with hx | hx
      · rcases List.mem_singleton.mp hx with rfl
        rw [hacc]
        rfl
      · cases hx
    | ok v =>
      simp only [insertedRows, List.foldr] at hr
      rcases List.mem_append.mp hr with hx | hx
      · rcases List.mem_singleton.mp hx with rfl
        rw [hacc]
        rfl
      · cases hx
  · intro r hdu hb
    cases c with
    | jobj fs =>
      simp only [jmem] at hdu
      injection hdu with hdu
      simp only [buildRow, jmem, Option.bind_eq_bind, Option.some_bind] at hb
      injection hb with hb
      subst hb
      rw [hdu]
      rfl
    | jundefined => simp [jmem] at hdu
    | jnull => simp [jmem] at hdu
    | jbool b => simp only [jmem] at hdu; injection hdu with hdu; cases hdu
    | jnum n => simp only [jmem] at hdu; injection hdu with hdu; cases hdu
    | jstr s => simp only [jmem] at hdu; injection hdu with hdu; cases hdu
    | jarr xs => simp only [jmem] at hdu; injection hdu with hdu; cases hdu
    | jdate t2 => simp only [jmem] at hdu; injection hdu with hdu; cases hdu
    | jdateOf v => simp only [jmem] at hdu; injection hdu with hdu; cases hdu
  · intro r hd hb
    cases c with
    | jobj fs =>
      simp only [jmem] at hd
      injection hd with hd
      simp only [buildRow, jmem, Option.bind_eq_bind, Option.some_bind] at hb
      injection hb with hb
      subst hb
      rw [hd]
      rfl
    | jundefined => simp [jmem] at hd
    | jnull => simp [jmem] at hd
    | jbool b => simp only [jmem] at hd; injection hd with hd; cases hd
    | jnum n => simp only [jmem] at hd; injection hd with hd; cases hd
    | jstr s => simp only [jmem] at hd; injection hd with hd; cases hd
    | jarr xs => simp only [jmem] at hd; injection hd with hd; cases hd
    | jdate t2 => simp only [jmem] at hd; injection hd with hd; cases hd
    | jdateOf v => simp only [jmem] at hd; injection hd with hd; cases hd

/-- C8 witness: concrete falsy optional values — `accuracy: 0` stored as
`null`, and a call element with `duration_seconds: 0` and `direction: ""`
stored with `null` for both. -/
theorem falsy_optional_fields_null_witness :
    getF [("user_id", JVal.jstr "u"), ("latitude", JVal.jnum 1), ("longitude", JVal.jnum 2),
      ("accuracy", JVal.jnull), ("ip", JVal.jnull), ("created_at", JVal.jdate 3)] "accuracy"
      = JVal.jnull ∧
    getF [("user_id", JVal.jstr "u"), ("number", JVal.jundefined), ("direction", JVal.jnull),
      ("started_at", JVal.jnull), ("duration_seconds", JVal.jnull),
      ("created_at", JVal.jdate 7)] "duration_seconds" = JVal.jnull ∧
    getF [("user_id", JVal.jstr "u"), ("number", JVal.jundefined), ("direction", JVal.jnull),
      ("started_at", JVal.jnull), ("duration_seconds", JVal.jnull),
      ("created_at", JVal.jdate 7)] "direction" = JVal.jnull := by
  have h := falsy_optional_fields_null ⟨.jundefined, none⟩
    [("user_id", .jstr "u"), ("latitude", .jnum 1), ("longitude", .jnum 2), ("accuracy", .jnum 0)]
    3 7 (.ok ()) (.jstr "u")
    (.jobj [("duration_seconds", .jnum 0), ("direction", .jstr "")])
    rfl rfl rfl rfl
  refine ⟨?_, ?_, ?_⟩
  · exact h.1 _ (List.mem_singleton.mpr rfl)
  · exact h.2.1 _ rfl rfl
  · exact h.2.2 _ rfl rfl

/-- C1 counterexample: with two call elements and a server clock that
advances between the two per-element `new Date()` evaluations inside
`calls.map`, the two inserted rows carry *different* `created_at` values —
the code takes one clock reading per row, not a single shared batch
timestamp. -/
theorem reportCalls_shared_created_at_cex :
    List.map (fun r => getF r "created_at")
      (insertedRows (reportCalls
        [("user_id", .jstr "u"),
         ("calls", .jarr [.jobj [("number", .jstr "111")], .jobj [("number", .jstr "222")]])]
        (fun i => Int.ofNat i) (.ok ()))) = [.jdate 0, .jdate 1] ∧
    JVal.jdate 0 ≠ JVal.jdate 1 := by
  refine ⟨rfl, ?_⟩
  intro h
  injection h with h2
  exact absurd h2 (by decide)

/-- C1 amended: for a truthy `user_id` and `calls` an array of length N
whose mapping throws no `TypeError`, exactly N rows are inserted in one
batch, each carrying the submitted `user_id` and a server-clock
`created_at` taken at that element's own `new Date()` evaluation (the k-th
row gets the k-th clock reading; all N coincide whenever the clock does not
advance during the synchronous mapping), and the success response's
`inserted` field equals N (N = 0 included). -/
theorem reportCalls_batch_correct (body : JObj) (tick : Nat → Int)
    (store : Except String Unit) (rows : List JObj)
    (hu : truthy (getF body "user_id") = true)
    (hc : isArray (getF body "calls") = true)
    (hrows : buildRows (getF body "user_id") tick (arrElems (getF body "calls")) 0 = some rows) :
    (reportCalls body tick store).ops = [StoreOp.insert "call_logs" rows] ∧
    List.length rows = List.length (arrElems (getF body "calls")) ∧
    (∀ r ∈ rows, getF r "user_id" = getF body "user_id") ∧
    (∀ k (hk : k < List.length rows),
      getF (rows.get ⟨k, hk⟩) "created_at" = .jdate (tick k)) ∧
    (store = .ok () →
      (reportCalls body tick store).status = 200 ∧
      getF (reportCalls body tick store).resBody "inserted" =
        .jnum (List.length (arrElems (getF body "calls")))) ∧
    ((∀ i j : Nat, tick i = tick j) →
      ∀ r ∈ rows, getF r "created_at" = .jdate (tick 0)) := by
  obtain ⟨hlen, huid, hts⟩ :=
    buildRows_spec (getF body "user_id") tick (arrElems (getF body "calls")) 0 rows hrows
  have hcond : (!truthy (getF body "user_id") || !isArray (getF body "calls")) = false := by
    rw [hu, hc]; rfl
  have hres : reportCalls body tick store =
      let op := StoreOp.insert "call_logs" rows
      match store with
      | .error m => { status := 500, resBody := errBody m, ops := [op] }
      | .ok _ =>
        { status := 200
          resBody := [("ok", .jbool true), ("inserted", .jnum (List.length rows))]
          ops := [op] } := by
    simp only [reportCalls, hcond, hrows]
    rfl
  refine ⟨?_, hlen, huid, ?_, ?_, ?_⟩
  · rw [hres]; cases store <;> rfl
  · intro k hk
    have h2 := hts k hk
    rwa [Nat.zero_add] at h2
  · intro h
    subst h
    rw [hres]
    refine ⟨rfl, ?_⟩
    rw [← hlen]
    rfl
  · intro hconst r hr
    obtain ⟨⟨k, hk⟩, hget⟩ := List.mem_iff_get.mp hr
    have h2 := hts k hk
    rw [Nat.zero_add] at h2
    rw [← hget, h2, hconst k 0]

/-- C1 amended witness: a two-element batch under a constant clock — 200,
`inserted = 2`, both rows carrying the submitted `user_id` and the shared
timestamp. -/
theorem reportCalls_batch_correct_witness :
    (reportCalls [("user_id", .jstr "u"),
      ("calls", .jarr [.jobj [("number", .jstr "111")], .jobj [("number", .jstr "222")]])]
      (fun _ => 5) (.ok ())).status = 200 ∧
    getF (reportCalls [("user_id", .jstr "u"),
      ("calls", .jarr [.jobj [("number", .jstr "111")], .jobj [("number", .jstr "222")]])]
      (fun _ => 5) (.ok ())).resBody "inserted" = .jnum 2 ∧
    getF [("user_id", JVal.jstr "u"), ("number", JVal.jstr "111"), ("direction", JVal.jnull),
      ("started_at", JVal.jnull), ("duration_seconds", JVal.jnull),
      ("created_at", JVal.jdate 5)] "created_at" = .jdate ((fun _ => (5 : Int)) 0) := by
  have h := reportCalls_batch_correct
    [("user_id", .jstr "u"),
     ("calls", .jarr [.jobj [("number", .jstr "111")], .jobj [("number", .jstr "222")]])]
    (fun _ => 5) (.ok ())
    [[("user_id", JVal.jstr "u"), ("number", JVal.jstr "111"), ("direction", JVal.jnull),
      ("started_at", JVal.jnull), ("duration_seconds", JVal.jnull),
      ("created_at", JVal.jdate 5)],
     [("user_id", JVal.jstr "u"), ("number", JVal.jstr "222"), ("direction", JVal.jnull),
      ("started_at", JVal.jnull), ("duration_seconds", JVal.jnull),
      ("created_at", JVal.jdate 5)]]
    rfl rfl rfl
  have hok := h.2.2.2.2.1 rfl
  refine ⟨hok.1, hok.2, ?_⟩
  exact h.2.2.2.2.2 (fun i j => rfl) _ (List.mem_cons_self _ _)

/-- C4: every row the core writes gets its `created_at` from the server
clock at write time (device-location and ip-location rows from the
handler's `new Date()`, call-log rows from their element's own `new Date()`
read) or, for consent rows, carries no `created_at` at all (left to the
store's own column default) — and no handler reads a client-supplied
`created_at` from the body: overwriting the body's `created_at` field
changes nothing in any handler's behaviour. -/
theorem created_at_server_side (req : ReqNet) (body : JObj) (now : Int)
    (tick : Nat → Int) (store : Except String Unit)
    (token : Option String) (fetchRes : Except String JObj) (v : JVal) :
    (∀ r ∈ insertedRows (reportLocation req body now store),
      getF r "created_at" = .jdate now) ∧
    reportLocation req (setF body "created_at" v) now store =
      reportLocation req body now store ∧
    (∀ r ∈ insertedRows (reportCalls body tick store),
      ∃ i, getF r "created_at" = .jdate (tick i)) ∧
    reportCalls (setF body "created_at" v) tick store = reportCalls body tick store ∧
    (∀ r ∈ insertedRows (reportIp token req body fetchRes now store),
      getF r "created_at" = .jdate now) ∧
    reportIp token req (setF body "created_at" v) fetchRes now store =
      reportIp token req body fetchRes now store ∧
    (∀ r ∈ insertedRows (postConsent body store), hasField r "created_at" = false) ∧
    postConsent (setF body "created_at" v) store = postConsent body store := by
  refine ⟨?_, ?_, ?_, ?_, ?_, ?_, ?_, ?_⟩
  · intro r hr
    simp only [reportLocation] at hr
    split at hr
    · simp [insertedRows] at hr
    · cases store with
      | error m =>
        simp only [insertedRows, List.foldr] at hr
        rcases List.mem_append.mp hr with hx | hx
        · rcases List.mem_singleton.mp hx with rfl
          rfl
        · cases hx
      | ok u =>
        simp only [insertedRows, List.foldr] at hr
        rcases List.mem_append.mp hr with hx | hx
        · rcases List.mem_singleton.mp hx with rfl
          rfl
        · cases hx
  · unfold reportLocation
    rw [getF_setF_ne "created_at" "user_id" (by decide) body v,
        getF_setF_ne "created_at" "latitude" (by decide) body v,
        getF_setF_ne "created_at" "longitude" (by decide) body v,
        getF_setF_ne "created_at" "accuracy" (by decide) body v]
  · intro r hr
    simp only [reportCalls] at hr
    split at hr
    · simp [insertedRows] at hr
    · rcases hbr : buildRows (getF body "user_id") tick (arrElems (getF body "calls")) 0 with
        _ | rows
      · rw [hbr] at hr
        simp [insertedRows] at hr
      · rw [hbr] at hr
        have hmem : r ∈ rows := by
          cases store with
          | error m =>
            simp only [insertedRows, List.foldr] at hr
            simpa using hr
          | ok u =>
            simp only [insertedRows, List.foldr] at hr
            simpa using hr
        exact buildRows_mem_created_at hbr r hmem
  · unfold reportCalls
    rw [getF_setF_ne "created_at" "user_id" (by decide) body v,
        getF_setF_ne "created_at" "calls" (by decide) body v]
  · intro r hr
    simp only [reportIp] at hr
    split at hr
    · simp [insertedRows] at hr
    · split at hr
      · simp [insertedRows] at hr
      · cases fetchRes with
        | error m => simp [insertedRows] at hr
        | ok geo =>
          cases store with
          | error m =>
            simp only [insertedRows, List.foldr] at hr
            rcases List.mem_append.mp hr with hx | hx
            · rcases List.mem_singleton.mp hx with rfl
              rfl
            · cases hx
          | ok u =>
            simp only [insertedRows, List.foldr] at hr
            rcases List.mem_append.mp hr with hx | hx
            · rcases List.mem_singleton.mp hx with rfl
              rfl
            · cases hx
  · unfold reportIp
    rw [getF_setF_ne "created_at" "user_id" (by decide) body v]
  · intro r hr
    simp only [postConsent] at hr
    split at hr
    · simp [insertedRows] at hr
    · cases store with
      | error m =>
        simp only [insertedRows, List.foldr] at hr
        rcases List.mem_append.mp hr with hx | hx
        · rcases List.mem_singleton.mp hx with rfl
          rfl
        · cases hx
      | ok u =>
        simp only [insertedRows, List.foldr] at hr
        rcases List.mem_append.mp hr with hx | hx
        · rcases List.mem_singleton.mp hx with rfl
          rfl
        · cases hx
  · unfold postConsent
    rw [getF_setF_ne "created_at" "user_id" (by decide) body v,
        getF_setF_ne "created_at" "consent_text" (by decide) body v]

/-- C4 witness: concrete calls — the written location row's `created_at` is
the server clock value, a client-smuggled `created_at` is ignored, and the
consent row has no `created_at` field at all. -/
theorem created_at_server_side_witness :
    getF [("user_id", JVal.jstr "u"), ("latitude", JVal.jnum 1), ("longitude", JVal.jnum 2),
      ("accuracy", JVal.jnull), ("ip", JVal.jnull), ("created_at", JVal.jdate 9)] "created_at"
      = JVal.jdate 9 ∧
    reportLocation ⟨.jundefined, none⟩
      (setF [("user_id", .jstr "u"), ("latitude", .jnum 1), ("longitude", .jnum 2),
        ("consent_text", .jstr "txt")] "created_at" (.jdate 1234)) 9 (.ok ()) =
      reportLocation ⟨.jundefined, none⟩
        [("user_id", .jstr "u"), ("latitude", .jnum 1), ("longitude", .jnum 2),
         ("consent_text", .jstr "txt")] 9 (.ok ()) ∧
    hasField (consentRow (.jstr "u") (.jstr "txt")) "created_at" = false := by
  have h := created_at_server_side ⟨.jundefined, none⟩
    [("user_id", .jstr "u"), ("latitude", .jnum 1), ("longitude", .jnum 2),
     ("consent_text", .jstr "txt")]
    9 (fun _ => 9) (.ok ()) none (.error "no token") (.jdate 1234)
  refine ⟨?_, h.2.1, ?_⟩
  · exact h.1 _ (List.mem_singleton.mpr rfl)
  · exact h.2.2.2.2.2.2.1 _ (List.mem_singleton.mpr rfl)

/-- C5: the admin listing holds at most 200 users, ordered by registration
recency descending; each entry's user comes from the user store, its
`last_location` (resp. `last_ip`) is a device-location (resp. ip-location)
row of that user with the greatest `created_at` — present whenever the user
has any such row, so with rows at t1 < t2 the t2 row is reported — and its
`calls` are at most 10 of the user's call-log rows ordered by the call's own
`started_at` descending. -/
theorem adminUsers_aggregation (db : AdminDb) (e : AdminEntry)
    (he : e ∈ adminUsers db) :
    List.length (adminUsers db) ≤ 200 ∧
    List.Sorted (descRel (fun x : AdminEntry => x.user.created_at)) (adminUsers db) ∧
    e.user ∈ db.users ∧
    (∀ r, e.last_location = some r → r.user_id = e.user.id ∧ r ∈ db.device_locations ∧
      ∀ r2 ∈ db.device_locations, r2.user_id = e.user.id → r2.created_at ≤ r.created_at) ∧
    ((∃ r ∈ db.device_locations, r.user_id = e.user.id) →
      (e.last_location).isSome = true) ∧
    (∀ r, e.last_ip = some r → r.user_id = e.user.id ∧ r ∈ db.ip_locations ∧
      ∀ r2 ∈ db.ip_locations, r2.user_id = e.user.id → r2.created_at ≤ r.created_at) ∧
    ((∃ r ∈ db.ip_locations, r.user_id = e.user.id) → (e.last_ip).isSome = true) ∧
    List.length e.calls ≤ 10 ∧
    (∀ c ∈ e.calls, c.user_id = e.user.id ∧ c ∈ db.call_logs) ∧
    List.Sorted (descRel (fun c : ACall => c.started_at)) e.calls := by
  obtain ⟨u, hu, rfl⟩ := List.mem_map.mp he
  refine ⟨?_, ?_, ?_, ?_, ?_, ?_, ?_, ?_, ?_, ?_⟩
  · simp only [adminUsers, List.length_map]
    exact queryDescLimit_length 200 db.users
  · simp only [adminUsers]
    exact List.pairwise_map.mpr
      (queryDescLimit_sorted 200 db.users)
  · exact mem_of_mem_queryDescLimit hu
  · intro r hr
    obtain ⟨hmem, hmax⟩ := queryDescLimit_head?_max hr
    obtain ⟨hdb, hpred⟩ := List.mem_filter.mp hmem
    refine ⟨by simpa using hpred, hdb, ?_⟩
    intro r2 h2 h2u
    exact hmax r2 (List.mem_filter.mpr ⟨h2, by simpa using h2u⟩)
  · rintro ⟨r, hrdb, hru⟩
    exact queryDescLimit_isSome_of_ne_nil
      (List.ne_nil_of_mem (List.mem_filter.mpr ⟨hrdb, by simpa using hru⟩)) (by decide)
  · intro r hr
    obtain ⟨hmem, hmax⟩ := queryDescLimit_head?_max hr
    obtain ⟨hdb, hpred⟩ := List.mem_filter.mp hmem
    refine ⟨by simpa using hpred, hdb, ?_⟩
    intro r2 h2 h2u
    exact hmax r2 (List.mem_filter.mpr ⟨h2, by simpa using h2u⟩)
  · rintro ⟨r, hrdb, hru⟩
    exact queryDescLimit_isSome_of_ne_nil
      (List.ne_nil_of_mem (List.mem_filter.mpr ⟨hrdb, by simpa using hru⟩)) (by decide)
  · exact queryDescLimit_length 10 _
  · intro c hc
    obtain ⟨hdb, hpred⟩ := List.mem_filter.mp (mem_of_mem_queryDescLimit hc)
    exact ⟨by simpa using hpred, hdb⟩
  · exact queryDescLimit_sorted 10 _

/-- C5 witness: on a store with two location rows for the one user at times
1 < 2, the reported `last_location` is the time-2 row, and the listing is
within the 200-user cap. -/
theorem adminUsers_aggregation_witness :
    List.length (adminUsers wAdminDb) ≤ 200 ∧
    (ALoc.mk "u" 1 10).created_at ≤ (ALoc.mk "u" 2 20).created_at ∧
    wAdminEntry.last_location = some ⟨"u", 2, 20⟩ := by
  have h := adminUsers_aggregation wAdminDb wAdminEntry (by decide)
  have h2 := h.2.2.2.1 ⟨"u", 2, 20⟩ rfl
  exact ⟨h.1, h2.2.2 ⟨"u", 1, 10⟩ (by decide) rfl, rfl⟩
